import Mathlib

/-!
# Verification of the milimg container codec

Shallow embedding of the container layer of `Hoshino-Yumetsuki/milimg-utils`:
the byte-level parser `parse_milimg_container` (src/decode.py) and the
file-assembly portion of `encode_milimg` (src/encode.py, lines 100-115),
modelled over byte sequences as `List Nat` (each element one byte).

Stream semantics: Python's `f.read(n)` on a sequential file returns
`min(n, remaining)` bytes and never raises; we model the not-yet-consumed
part of the stream with `List.take` / `List.drop`.  `struct.unpack` raises
`struct.error` exactly when the buffer it receives is shorter than the
format requires; `struct.pack` raises when a value does not fit the field.
-/

namespace Milimg

/-- The 8-byte ASCII magic signature `Milimg00`. -/
def MAGIC : List Nat := [77, 105, 108, 105, 109, 103, 48, 48]

/-- The record stored in a `.milimg` file (dataclass `MilimgHeader` in
src/decode.py): version, width, height, color payload, optional alpha
payload. -/
structure MilimgHeader where
  version : Nat
  width : Nat
  height : Nat
  color_payload : List Nat
  alpha_payload : Option (List Nat) := none
deriving DecidableEq, Repr

/-- Errors raised by `parse_milimg_container`:
`badMagic` is the `ValueError("file format error: invalid magic number")`
at decode.py line 28; `unsupportedVersion v` is the
`ValueError(f"unsupported version: {v}")` at line 32; `truncated` is the
`struct.error` that `struct.unpack` raises when `f.read` returned fewer
bytes than the format string requires (lines 30, 34, 39). -/
inductive ParseError where
  | badMagic
  | unsupportedVersion (v : Nat)
  | truncated
deriving DecidableEq, Repr

/-- Errors raised by the file-assembly block of `encode_milimg`
(src/encode.py lines 100-115): `packOverflow` is the `struct.error` raised
by `struct.pack` when a value exceeds the field width; `noneLen` is the
`TypeError` raised by `len(alpha_payload)` at line 114 when
`alpha_payload` is `None`. -/
inductive EncodeError where
  | packOverflow
  | noneLen
deriving DecidableEq, Repr

/-- Big-endian interpretation of a byte string, as `struct.unpack` does for
`>I` (4 bytes) and `>Q` (8 bytes). -/
def unpackBE (b : List Nat) : Nat :=
  b.foldl (fun acc x => acc * 256 + x) 0

/-- `struct.pack(">I", n)`: 4 big-endian bytes. -/
def pack32 (n : Nat) : List Nat :=
  [n / 2 ^ 24 % 256, n / 2 ^ 16 % 256, n / 2 ^ 8 % 256, n % 256]

/-- `struct.pack(">Q", n)`: 8 big-endian bytes. -/
def pack64 (n : Nat) : List Nat :=
  [n / 2 ^ 56 % 256, n / 2 ^ 48 % 256, n / 2 ^ 40 % 256, n / 2 ^ 32 % 256,
   n / 2 ^ 24 % 256, n / 2 ^ 16 % 256, n / 2 ^ 8 % 256, n % 256]

/-- `parse_milimg_container` (src/decode.py lines 22-48), over the full
byte contents `data` of the file.  Mirrors the Python line by line:
* `f.read(8) != b"Milimg00"` → `badMagic`;
* `struct.unpack(">I", f.read(4))` → `truncated` when fewer than 4 bytes
  remain, else the version; versions outside `{0,1}` → `unsupportedVersion`;
* `struct.unpack(">IIQ", f.read(16))` → `truncated` when fewer than 16
  bytes remain, else width (bytes 0-3), height (bytes 4-7), color payload
  size (bytes 8-15);
* `f.read(color_payload_size)` never fails: it returns the (possibly
  shorter) remaining bytes;
* when version = 1, `struct.unpack(">Q", f.read(8))` → `truncated` when
  fewer than 8 bytes remain, then `f.read(alpha_payload_size)` likewise
  never fails. -/
def parse_milimg_container (data : List Nat) : Except ParseError MilimgHeader :=
  if data.take 8 ≠ MAGIC then .error .badMagic
  else
    let r1 := data.drop 8
    if r1.length < 4 then .error .truncated
    else
      let version := unpackBE (r1.take 4)
      if version ≠ 0 ∧ version ≠ 1 then .error (.unsupportedVersion version)
      else
        let r2 := r1.drop 4
        if r2.length < 16 then .error .truncated
        else
          let width := unpackBE (r2.take 4)
          let height := unpackBE ((r2.drop 4).take 4)
          let color_payload_size := unpackBE ((r2.drop 8).take 8)
          let r3 := r2.drop 16
          let color_payload := r3.take color_payload_size
          let r4 := r3.drop color_payload_size
          if version = 1 then
            if r4.length < 8 then .error .truncated
            else
              let alpha_payload_size := unpackBE (r4.take 8)
              let alpha_payload := (r4.drop 8).take alpha_payload_size
              .ok ⟨version, width, height, color_payload, some alpha_payload⟩
          else
            .ok ⟨version, width, height, color_payload, none⟩

/-- The file-assembly block of `encode_milimg` (src/encode.py lines
100-115), taken as the write operation over an in-memory record: magic,
then `pack(">I", version)`, `pack(">I", width)`, `pack(">I", height)`,
`pack(">Q", len(color_payload))`, the color bytes, and — only when
`version == 1` — `pack(">Q", len(alpha_payload))` and the alpha bytes.
`struct.pack` overflow and the `len(None)` `TypeError` are the only
failure points; no validation of the record is performed. -/
def serialize (r : MilimgHeader) : Except EncodeError (List Nat) :=
  if r.version ≥ 2 ^ 32 then .error .packOverflow
  else if r.width ≥ 2 ^ 32 then .error .packOverflow
  else if r.height ≥ 2 ^ 32 then .error .packOverflow
  else if r.color_payload.length ≥ 2 ^ 64 then .error .packOverflow
  else
    let base := MAGIC ++ pack32 r.version ++ pack32 r.width ++ pack32 r.height
      ++ pack64 r.color_payload.length ++ r.color_payload
    if r.version = 1 then
      match r.alpha_payload with
      | none => .error .noneLen
      | some a =>
        if a.length ≥ 2 ^ 64 then .error .packOverflow
        else .ok (base ++ pack64 a.length ++ a)
    else .ok base

/-- The record the writer `encode_milimg` (src/encode.py lines 69-99)
assembles before serialization, parameterized by the collaborator outputs:
`use_alpha` is the result of `has_transparency`, `color` and `alpha` the
codec-produced payloads.  `version = 1 if use_alpha else 0`, and
`alpha_payload` is set exactly when `version == 1`. -/
def encode_milimg_record (use_alpha : Bool) (width height : Nat)
    (color alpha : List Nat) : MilimgHeader :=
  { version := if use_alpha then 1 else 0
    width := width
    height := height
    color_payload := color
    alpha_payload := if use_alpha then some alpha else none }

/-- The coupled invariant of §3 of the spec: version in {0,1} and alpha
present exactly when version = 1. -/
def validRecord (r : MilimgHeader) : Prop :=
  (r.version = 0 ∨ r.version = 1) ∧
    (r.alpha_payload = none ↔ r.version = 0) ∧
    (r.alpha_payload.isSome = true ↔ r.version = 1)

instance (r : MilimgHeader) : Decidable (validRecord r) :=
  inferInstanceAs (Decidable (_ ∧ _ ∧ _))

/-! ## Basic lemmas about packing and byte-stream splitting -/

lemma unpackBE_pack32 (n : Nat) (h : n < 2 ^ 32) : unpackBE (pack32 n) = n := by
  simp [unpackBE, pack32]; omega

lemma unpackBE_pack64 (n : Nat) (h : n < 2 ^ 64) : unpackBE (pack64 n) = n := by
  simp [unpackBE, pack64]; omega

lemma take_magic (x : List Nat) : (MAGIC ++ x).take 8 = MAGIC := List.take_left' rfl

lemma drop_magic (x : List Nat) : (MAGIC ++ x).drop 8 = x := List.drop_left' rfl

lemma take_pack32 (n : Nat) (x : List Nat) : (pack32 n ++ x).take 4 = pack32 n :=
  List.take_left' rfl

lemma drop_pack32 (n : Nat) (x : List Nat) : (pack32 n ++ x).drop 4 = x :=
  List.drop_left' rfl

lemma take_pack64 (n : Nat) (x : List Nat) : (pack64 n ++ x).take 8 = pack64 n :=
  List.take_left' rfl

lemma drop_pack64 (n : Nat) (x : List Nat) : (pack64 n ++ x).drop 8 = x :=
  List.drop_left' rfl

lemma drop8_two32 (a b : Nat) (x : List Nat) :
    (pack32 a ++ (pack32 b ++ x)).drop 8 = x := by
  simp [List.drop_append_eq_append_drop, pack32]

lemma drop16_hdr (a b n : Nat) (x : List Nat) :
    (pack32 a ++ (pack32 b ++ (pack64 n ++ x))).drop 16 = x := by
  simp [List.drop_append_eq_append_drop, pack32, pack64]

/-! ## Parsing a serialized stream (with arbitrary trailing bytes) -/

/-- Parsing a serialized version-0 stream followed by arbitrary extra bytes
recovers the record exactly. -/
lemma parse_ok_v0 (w h : Nat) (c extra : List Nat)
    (hw : w < 2 ^ 32) (hh : h < 2 ^ 32) (hc : c.length < 2 ^ 64) :
    parse_milimg_container (MAGIC ++ pack32 0 ++ pack32 w ++ pack32 h
      ++ pack64 c.length ++ c ++ extra) = .ok ⟨0, w, h, c, none⟩ := by
  simp only [List.append_assoc]
  simp only [parse_milimg_container]
  rw [take_magic, drop_magic]
  rw [if_neg (by simp)]
  rw [if_neg (by simp [pack32])]
  rw [take_pack32, unpackBE_pack32 0 (by norm_num)]
  rw [if_neg (by simp)]
  rw [drop_pack32]
  rw [if_neg (by simp [pack32, pack64])]
  rw [take_pack32, unpackBE_pack32 w hw]
  rw [drop_pack32, take_pack32, unpackBE_pack32 h hh]
  rw [drop8_two32, take_pack64, unpackBE_pack64 _ hc]
  rw [drop16_hdr]
  rw [List.take_left, List.drop_left]
  simp

/-- Parsing a serialized version-1 stream followed by arbitrary extra bytes
recovers the record exactly. -/
lemma parse_ok_v1 (w h : Nat) (c a extra : List Nat)
    (hw : w < 2 ^ 32) (hh : h < 2 ^ 32) (hc : c.length < 2 ^ 64)
    (ha : a.length < 2 ^ 64) :
    parse_milimg_container (MAGIC ++ pack32 1 ++ pack32 w ++ pack32 h
      ++ pack64 c.length ++ c ++ pack64 a.length ++ a ++ extra) =
      .ok ⟨1, w, h, c, some a⟩ := by
  simp only [List.append_assoc]
  simp only [parse_milimg_container]
  rw [take_magic, drop_magic]
  rw [if_neg (by simp)]
  rw [if_neg (by simp [pack32])]
  rw [take_pack32, unpackBE_pack32 1 (by norm_num)]
  rw [if_neg (by simp)]
  rw [drop_pack32]
  rw [if_neg (by simp [pack32, pack64])]
  rw [take_pack32, unpackBE_pack32 w hw]
  rw [drop_pack32, take_pack32, unpackBE_pack32 h hh]
  rw [drop8_two32, take_pack64, unpackBE_pack64 _ hc]
  rw [drop16_hdr]
  rw [List.take_left, List.drop_left]
  rw [if_pos rfl]
  rw [if_neg (by simp [pack64])]
  rw [take_pack64, unpackBE_pack64 _ ha]
  rw [drop_pack64]
  rw [List.take_left]

/-! ## Serializer output equations -/

/-- Serializing a version-0 record with in-range fields yields exactly the
concatenated layout. -/
lemma serialize_v0 (w h : Nat) (c : List Nat)
    (hw : w < 2 ^ 32) (hh : h < 2 ^ 32) (hc : c.length < 2 ^ 64) :
    serialize ⟨0, w, h, c, none⟩ =
      .ok (MAGIC ++ pack32 0 ++ pack32 w ++ pack32 h ++ pack64 c.length ++ c) := by
  simp only [serialize]
  rw [if_neg (by omega), if_neg (by omega), if_neg (by omega), if_neg (by omega)]
  simp [List.append_assoc]

/-- Serializing a version-1 record with in-range fields yields exactly the
concatenated layout with the alpha section appended. -/
lemma serialize_v1 (w h : Nat) (c a : List Nat)
    (hw : w < 2 ^ 32) (hh : h < 2 ^ 32) (hc : c.length < 2 ^ 64)
    (ha : a.length < 2 ^ 64) :
    serialize ⟨1, w, h, c, some a⟩ =
      .ok (MAGIC ++ pack32 1 ++ pack32 w ++ pack32 h ++ pack64 c.length ++ c
        ++ pack64 a.length ++ a) := by
  simp only [serialize]
  rw [if_neg (by omega), if_neg (by omega), if_neg (by omega), if_neg (by omega)]
  simp [List.append_assoc]
  omega

/-- Parsing any stream consisting of serialized bytes of a valid in-range
record plus arbitrary trailing bytes recovers the record exactly. -/
lemma serialize_parse_append (r : MilimgHeader) (s t : List Nat)
    (hval : validRecord r) (hw : r.width < 2 ^ 32) (hh : r.height < 2 ^ 32)
    (hc : r.color_payload.length < 2 ^ 64)
    (ha : (r.alpha_payload.getD []).length < 2 ^ 64)
    (hs : serialize r = .ok s) :
    parse_milimg_container (s ++ t) = .ok r := by
  obtain ⟨v, w, h, c, al⟩ := r
  obtain ⟨hv01, hnone, hsome⟩ := hval
  simp only at hv01 hnone hsome hw hh hc ha
  rcases hv01 with hv | hv
  · subst hv
    obtain rfl : al = none := hnone.mpr rfl
    rw [serialize_v0 w h c hw hh hc] at hs
    obtain rfl : _ = s := (Except.ok.injEq _ _).mp hs
    exact parse_ok_v0 w h c t hw hh hc
  · subst hv
    obtain ⟨a, rfl⟩ : ∃ a, al = some a := Option.isSome_iff_exists.mp (hsome.mpr rfl)
    simp only [Option.getD_some] at ha
    rw [serialize_v1 w h c a hw hh hc ha] at hs
    obtain rfl : _ = s := (Except.ok.injEq _ _).mp hs
    exact parse_ok_v1 w h c a t hw hh hc ha

/-- Any input shorter than 8 bytes fails the magic comparison: `f.read(8)`
returns the whole short input, which cannot equal the 8-byte magic. -/
lemma parse_len_lt8 (data : List Nat) (h : data.length < 8) :
    parse_milimg_container data = .error .badMagic := by
  have ht : data.take 8 = data := List.take_of_length_le (by omega)
  have hne : data.take 8 ≠ MAGIC := by
    rw [ht]
    intro heq
    have hl := congrArg List.length heq
    simp [MAGIC] at hl
    omega
  simp only [parse_milimg_container]
  rw [if_pos hne]

/-! ## Claim theorems -/

/-- C1: for every valid `ContainerRecord` r (version in {0,1}, alpha
payload present iff version = 1, fields in the ranges the binary fields
hold), parsing the bytes produced by serializing r yields a record equal
to r field for field. -/
theorem parse_serialize_roundtrip (r : MilimgHeader)
    (hval : validRecord r) (hw : r.width < 2 ^ 32) (hh : r.height < 2 ^ 32)
    (hc : r.color_payload.length < 2 ^ 64)
    (ha : (r.alpha_payload.getD []).length < 2 ^ 64) :
    ∃ s, serialize r = .ok s ∧ parse_milimg_container s = .ok r := by
  obtain ⟨v, w, h, c, al⟩ := r
  obtain ⟨hv01, hnone, hsome⟩ := hval
  simp only at hv01 hnone hsome hw hh hc ha
  have hok : ∃ s, serialize ⟨v, w, h, c, al⟩ = .ok s := by
    rcases hv01 with hv | hv
    · subst hv
      obtain rfl : al = none := hnone.mpr rfl
      exact ⟨_, serialize_v0 w h c hw hh hc⟩
    · subst hv
      obtain ⟨a, rfl⟩ : ∃ a, al = some a := Option.isSome_iff_exists.mp (hsome.mpr rfl)
      simp only [Option.getD_some] at ha
      exact ⟨_, serialize_v1 w h c a hw hh hc ha⟩
  obtain ⟨s, hs⟩ := hok
  refine ⟨s, hs, ?_⟩
  have := serialize_parse_append ⟨v, w, h, c, al⟩ s []
    ⟨hv01, hnone, hsome⟩ hw hh hc ha hs
  simpa using this

/-- Witness for C1 at the concrete record (0, 4, 2, "AB", no alpha). -/
theorem parse_serialize_roundtrip_witness :
    ∃ s, serialize ⟨0, 4, 2, [65, 66], none⟩ = .ok s ∧
      parse_milimg_container s = .ok ⟨0, 4, 2, [65, 66], none⟩ :=
  parse_serialize_roundtrip ⟨0, 4, 2, [65, 66], none⟩
    (by decide) (by decide) (by decide) (by decide) (by decide)

/-- C4: any input whose first 8 bytes are not exactly `Milimg00` fails
with `badMagic`, regardless of what follows. -/
theorem parse_bad_magic_rejected (data : List Nat) (h : data.take 8 ≠ MAGIC) :
    parse_milimg_container data = .error .badMagic := by
  simp only [parse_milimg_container]
  rw [if_pos h]

/-- Witness for C4 on a concrete 9-byte input with a wrong first byte. -/
theorem parse_bad_magic_rejected_witness :
    parse_milimg_container [78, 105, 108, 105, 109, 103, 48, 48, 0] =
      .error .badMagic :=
  parse_bad_magic_rejected [78, 105, 108, 105, 109, 103, 48, 48, 0] (by decide)

/-- C5: an input that begins with the correct magic and whose 4-byte
big-endian version field holds a value other than 0 or 1 fails with
`unsupportedVersion`, carrying that value. -/
theorem parse_unsupported_version_rejected (vb rest : List Nat)
    (hlen : vb.length = 4) (hbytes : ∀ b ∈ vb, b < 256)
    (h0 : unpackBE vb ≠ 0) (h1 : unpackBE vb ≠ 1) :
    parse_milimg_container (MAGIC ++ vb ++ rest) =
      .error (.unsupportedVersion (unpackBE vb)) := by
  simp only [List.append_assoc]
  simp only [parse_milimg_container]
  rw [take_magic, drop_magic]
  rw [if_neg (by simp)]
  rw [if_neg (by rw [List.length_append, hlen]; omega)]
  rw [List.take_left' hlen]
  rw [if_pos ⟨h0, h1⟩]

/-- Witness for C5 with version field 2 and empty remainder. -/
theorem parse_unsupported_version_rejected_witness :
    parse_milimg_container (MAGIC ++ [0, 0, 0, 2] ++ []) =
      .error (.unsupportedVersion (unpackBE [0, 0, 0, 2])) :=
  parse_unsupported_version_rejected [0, 0, 0, 2] [] (by decide) (by decide)
    (by decide) (by decide)

/-- C7: serializing the record (version 0, width 4, height 2, color
payload "AB") produces exactly the 30 bytes magic, 00000000, 00000004,
00000002, 0000000000000002, 0x41 0x42. -/
theorem serialize_scenario_A :
    serialize ⟨0, 4, 2, [65, 66], none⟩ =
      .ok [77, 105, 108, 105, 109, 103, 48, 48,
           0, 0, 0, 0,  0, 0, 0, 4,  0, 0, 0, 2,
           0, 0, 0, 0, 0, 0, 0, 2,  65, 66] ∧
    (serialize ⟨0, 4, 2, [65, 66], none⟩).map List.length = .ok 30 :=
  ⟨rfl, rfl⟩

/-- C9: the parser does not check for trailing bytes: appending any extra
bytes to a well-formed (serialized) stream leaves the parse result
unchanged. -/
theorem parse_ignores_trailing_bytes (r : MilimgHeader) (s t : List Nat)
    (hval : validRecord r) (hw : r.width < 2 ^ 32) (hh : r.height < 2 ^ 32)
    (hc : r.color_payload.length < 2 ^ 64)
    (ha : (r.alpha_payload.getD []).length < 2 ^ 64)
    (hs : serialize r = .ok s) :
    parse_milimg_container (s ++ t) = .ok r ∧
      parse_milimg_container s = .ok r := by
  refine ⟨serialize_parse_append r s t hval hw hh hc ha hs, ?_⟩
  have := serialize_parse_append r s [] hval hw hh hc ha hs
  simpa using this

/-- Witness for C9: three junk bytes appended to a serialized stream. -/
theorem parse_ignores_trailing_bytes_witness :
    parse_milimg_container
        ([77, 105, 108, 105, 109, 103, 48, 48,
          0, 0, 0, 0,  0, 0, 0, 4,  0, 0, 0, 2,
          0, 0, 0, 0, 0, 0, 0, 2,  65, 66] ++ [9, 9, 9]) =
      .ok ⟨0, 4, 2, [65, 66], none⟩ ∧
    parse_milimg_container
        [77, 105, 108, 105, 109, 103, 48, 48,
         0, 0, 0, 0,  0, 0, 0, 4,  0, 0, 0, 2,
         0, 0, 0, 0, 0, 0, 0, 2,  65, 66] =
      .ok ⟨0, 4, 2, [65, 66], none⟩ :=
  parse_ignores_trailing_bytes ⟨0, 4, 2, [65, 66], none⟩ _ [9, 9, 9]
    (by decide) (by decide) (by decide) (by decide) (by decide) rfl

/-- C10: any input of fewer than 8 bytes (including the empty input) fails
with `badMagic`, not with a truncation error: the magic comparison is made
against the short read. -/
theorem parse_short_input_bad_magic (data : List Nat) (h : data.length < 8) :
    parse_milimg_container data = .error .badMagic :=
  parse_len_lt8 data h

/-- Witness for C10 on the empty input. -/
theorem parse_short_input_bad_magic_witness :
    parse_milimg_container [] = .error .badMagic :=
  parse_short_input_bad_magic [] (by decide)

/-! ## Invariant helpers -/

/-- Every successfully parsed record satisfies the coupled
version/alpha invariant. -/
lemma parse_ok_validRecord (data : List Nat) (r : MilimgHeader)
    (h : parse_milimg_container data = .ok r) : validRecord r := by
  simp only [parse_milimg_container] at h
  split at h
  · exact Except.noConfusion h
  split at h
  · exact Except.noConfusion h
  split at h
  · exact Except.noConfusion h
  split at h
  · exact Except.noConfusion h
  split at h
  · split at h
    · exact Except.noConfusion h
    · rename_i hver hv1 _
      injection h with h
      subst h
      simp [validRecord, hv1]
  · rename_i hver hv1
    injection h with h
    subst h
    have hv0 : unpackBE ((data.drop 8).take 4) = 0 := by omega
    simp [validRecord, hv0]

/-- The 4 bytes at offset 8 of any successfully serialized stream are the
packed version field of the record. -/
lemma serialize_version_field (r : MilimgHeader) (s : List Nat)
    (hs : serialize r = .ok s) : (s.drop 8).take 4 = pack32 r.version := by
  simp only [serialize] at hs
  split at hs
  · exact Except.noConfusion hs
  split at hs
  · exact Except.noConfusion hs
  split at hs
  · exact Except.noConfusion hs
  split at hs
  · exact Except.noConfusion hs
  split at hs
  · split at hs
    · exact Except.noConfusion hs
    · split at hs
      · exact Except.noConfusion hs
      · injection hs with hs
        subst hs
        simp only [List.append_assoc]
        rw [drop_magic, take_pack32]
  · injection hs with hs
    subst hs
    simp only [List.append_assoc]
    rw [drop_magic, take_pack32]

/-- C6: serialize emits exactly the concatenation magic, version, width,
height, color length, color bytes, and (version 1 only) alpha length and
alpha bytes, with total length 28 + N for version 0 and 36 + N + M for
version 1. -/
theorem serialize_layout_and_length (r : MilimgHeader)
    (hval : validRecord r) (hw : r.width < 2 ^ 32) (hh : r.height < 2 ^ 32)
    (hc : r.color_payload.length < 2 ^ 64)
    (ha : (r.alpha_payload.getD []).length < 2 ^ 64) :
    serialize r = .ok (MAGIC ++ pack32 r.version ++ pack32 r.width
        ++ pack32 r.height ++ pack64 r.color_payload.length ++ r.color_payload
        ++ (match r.alpha_payload with
            | none => []
            | some a => pack64 a.length ++ a)) ∧
    (∀ s, serialize r = .ok s →
      s.length = if r.version = 0 then 28 + r.color_payload.length
        else 36 + r.color_payload.length + (r.alpha_payload.getD []).length) := by
  obtain ⟨v, w, h, c, al⟩ := r
  obtain ⟨hv01, hnone, hsome⟩ := hval
  simp only at hv01 hnone hsome hw hh hc ha ⊢
  rcases hv01 with hv | hv
  · subst hv
    obtain rfl : al = none := hnone.mpr rfl
    refine ⟨by simpa using serialize_v0 w h c hw hh hc, ?_⟩
    intro s hs
    rw [serialize_v0 w h c hw hh hc] at hs
    obtain rfl : _ = s := (Except.ok.injEq _ _).mp hs
    simp [MAGIC, pack32, pack64]
    omega
  · subst hv
    obtain ⟨a, rfl⟩ : ∃ a, al = some a := Option.isSome_iff_exists.mp (hsome.mpr rfl)
    simp only [Option.getD_some] at ha
    refine ⟨?_, ?_⟩
    · have := serialize_v1 w h c a hw hh hc ha
      simp only [List.append_assoc] at this ⊢
      simpa using this
    · intro s hs
      rw [serialize_v1 w h c a hw hh hc ha] at hs
      obtain rfl : _ = s := (Except.ok.injEq _ _).mp hs
      simp [MAGIC, pack32, pack64]
      omega

/-- Witness for C6 at a concrete version-1 record. -/
theorem serialize_layout_and_length_witness :
    serialize ⟨1, 3, 5, [1, 2, 3, 4, 5], some [9, 9, 9]⟩ =
      .ok (MAGIC ++ pack32 1 ++ pack32 3 ++ pack32 5 ++ pack64 5
        ++ [1, 2, 3, 4, 5] ++ (pack64 3 ++ [9, 9, 9])) ∧
    (∀ s, serialize ⟨1, 3, 5, [1, 2, 3, 4, 5], some [9, 9, 9]⟩ = .ok s →
      s.length = 44) := by
  have := serialize_layout_and_length ⟨1, 3, 5, [1, 2, 3, 4, 5], some [9, 9, 9]⟩
    (by decide) (by decide) (by decide) (by decide) (by decide)
  simpa using this

/-- C8: every record returned by a successful parse satisfies the coupled
invariant; the writer only builds records satisfying it; and the version
field of any stream the writer serializes is the packed 0 or 1. -/
theorem parse_and_writer_invariant :
    (∀ data r, parse_milimg_container data = .ok r → validRecord r) ∧
    (∀ ua w h c a, validRecord (encode_milimg_record ua w h c a)) ∧
    (∀ ua w h c a s, serialize (encode_milimg_record ua w h c a) = .ok s →
      (s.drop 8).take 4 = pack32 (encode_milimg_record ua w h c a).version ∧
      ((encode_milimg_record ua w h c a).version = 0 ∨
        (encode_milimg_record ua w h c a).version = 1)) := by
  refine ⟨fun data r h => parse_ok_validRecord data r h, ?_, ?_⟩
  · intro ua w h c a
    cases ua <;> simp [encode_milimg_record, validRecord]
  · intro ua w h c a s hs
    refine ⟨serialize_version_field _ s hs, ?_⟩
    cases ua <;> simp [encode_milimg_record]

/-- Witness for C8: a parsed record and a writer record both satisfy the
invariant. -/
theorem parse_and_writer_invariant_witness :
    validRecord ⟨0, 0, 0, [], none⟩ ∧
      validRecord (encode_milimg_record true 1 1 [2] [3]) :=
  ⟨parse_and_writer_invariant.1
      [77, 105, 108, 105, 109, 103, 48, 48,
       0, 0, 0, 0,  0, 0, 0, 0,  0, 0, 0, 0,  0, 0, 0, 0, 0, 0, 0, 0]
      ⟨0, 0, 0, [], none⟩ rfl,
    parse_and_writer_invariant.2.1 true 1 1 [2] [3]⟩

/-! ## C3: the serializer performs no record validation -/

/-- C3 counterexample: a version-0 record with a present alpha payload is
serialized successfully (28 header bytes, alpha silently dropped) instead
of failing with `InvalidRecord` as the claim states. -/
theorem serialize_v0_with_alpha_succeeds :
    serialize ⟨0, 1, 1, [], some [7]⟩ =
      .ok [77, 105, 108, 105, 109, 103, 48, 48,
           0, 0, 0, 0,  0, 0, 0, 1,  0, 0, 0, 1,
           0, 0, 0, 0, 0, 0, 0, 0] :=
  rfl

/-- C3 amended: the assembly validates nothing.  A version-1 record with
absent alpha fails only through the `len(None)` `TypeError`; for any
version other than 1 (including 0 with a present alpha, and versions
outside {0,1}), serialization succeeds, and a present alpha payload is
silently ignored. -/
theorem serialize_no_validation (v w h : Nat) (c a : List Nat)
    (hv : v < 2 ^ 32) (hv1 : v ≠ 1) (hw : w < 2 ^ 32) (hh : h < 2 ^ 32)
    (hc : c.length < 2 ^ 64) :
    serialize ⟨1, w, h, c, none⟩ = .error .noneLen ∧
    serialize ⟨v, w, h, c, some a⟩ = serialize ⟨v, w, h, c, none⟩ ∧
    (∃ s, serialize ⟨v, w, h, c, none⟩ = .ok s) := by
  have hbase : ∀ al : Option (List Nat),
      serialize ⟨v, w, h, c, al⟩ =
        .ok (MAGIC ++ pack32 v ++ pack32 w ++ pack32 h
          ++ pack64 c.length ++ c) := by
    intro al
    simp only [serialize]
    rw [if_neg (by omega), if_neg (by omega), if_neg (by omega),
      if_neg (by omega), if_neg hv1]
  refine ⟨?_, by rw [hbase, hbase], ⟨_, hbase none⟩⟩
  simp only [serialize]
  rw [if_neg (by omega), if_neg (by omega), if_neg (by omega),
    if_neg (by omega)]
  rfl

/-- Witness for the amended C3 at version 0, alpha `[7]`. -/
theorem serialize_no_validation_witness :
    serialize ⟨1, 9, 9, [5], none⟩ = .error .noneLen ∧
    serialize ⟨0, 9, 9, [5], some [7]⟩ = serialize ⟨0, 9, 9, [5], none⟩ ∧
    (∃ s, serialize ⟨0, 9, 9, [5], none⟩ = .ok s) :=
  serialize_no_validation 0 9 9 [5] [7] (by decide) (by decide) (by decide)
    (by decide) (by decide)

/-! ## C2: behavior of parse on truncated streams -/

lemma pack32_length (n : Nat) : (pack32 n).length = 4 := rfl

lemma pack64_length (n : Nat) : (pack64 n).length = 8 := rfl

lemma take_append_general (a b : List Nat) (k n : Nat)
    (hn : a.length = n) (hk : n ≤ k) :
    (a ++ b).take k = a ++ b.take (k - n) := by
  subst hn
  rw [List.take_append_eq_append_take, List.take_of_length_le hk]

/-- Truncating anywhere in the first 8 bytes yields `badMagic`. -/
lemma parse_take_lt8 (s : List Nat) (k : Nat) (hk : k < 8) :
    parse_milimg_container (s.take k) = .error .badMagic :=
  parse_len_lt8 _ (lt_of_le_of_lt (List.length_take_le k s) hk)

/-- Truncating inside the 4-byte version field yields `truncated`. -/
lemma parse_take_hdr1 (X : List Nat) (k : Nat) (h8 : 8 ≤ k) (h12 : k < 12) :
    parse_milimg_container ((MAGIC ++ X).take k) = .error .truncated := by
  rw [take_append_general MAGIC X k 8 rfl h8]
  simp only [parse_milimg_container]
  rw [take_magic, drop_magic]
  rw [if_neg (by simp)]
  rw [if_pos (lt_of_le_of_lt (List.length_take_le _ _) (by omega))]

/-- Truncating inside the 16-byte width/height/color-length block yields
`truncated` (for a recognized version). -/
lemma parse_take_hdr2 (v : Nat) (Y : List Nat) (k : Nat) (hv : v = 0 ∨ v = 1)
    (h12 : 12 ≤ k) (h28 : k < 28) :
    parse_milimg_container ((MAGIC ++ (pack32 v ++ Y)).take k) =
      .error .truncated := by
  rw [take_append_general MAGIC _ k 8 rfl (by omega)]
  rw [take_append_general (pack32 v) Y (k - 8) 4 rfl (by omega)]
  simp only [parse_milimg_container]
  rw [take_magic, drop_magic]
  rw [if_neg (by simp)]
  rw [if_neg (by rw [List.length_append, pack32_length]; omega)]
  rw [take_pack32, unpackBE_pack32 v (by omega)]
  rw [if_neg (by omega)]
  rw [drop_pack32]
  rw [if_pos (lt_of_le_of_lt (List.length_take_le _ _) (by omega))]

/-- Truncating a version-0 stream at or after byte 28 succeeds, returning
the color payload cut down to the bytes actually present. -/
lemma parse_take_v0_payload (w h : Nat) (c : List Nat) (k : Nat)
    (hw : w < 2 ^ 32) (hh : h < 2 ^ 32) (hc : c.length < 2 ^ 64)
    (h28 : 28 ≤ k) :
    parse_milimg_container ((MAGIC ++ pack32 0 ++ pack32 w ++ pack32 h
      ++ pack64 c.length ++ c).take k) =
      .ok ⟨0, w, h, c.take (k - 28), none⟩ := by
  simp only [List.append_assoc]
  rw [take_append_general MAGIC _ k 8 rfl (by omega)]
  rw [take_append_general (pack32 0) _ (k - 8) 4 rfl (by omega)]
  rw [take_append_general (pack32 w) _ (k - 8 - 4) 4 rfl (by omega)]
  rw [take_append_general (pack32 h) _ (k - 8 - 4 - 4) 4 rfl (by omega)]
  rw [take_append_general (pack64 c.length) _ (k - 8 - 4 - 4 - 4) 8 rfl (by omega)]
  have hsub : k - 8 - 4 - 4 - 4 - 8 = k - 28 := by omega
  rw [hsub]
  simp only [parse_milimg_container]
  rw [take_magic, drop_magic]
  rw [if_neg (by simp)]
  rw [if_neg (by rw [List.length_append, pack32_length]; omega)]
  rw [take_pack32, unpackBE_pack32 0 (by omega)]
  rw [if_neg (by simp)]
  rw [drop_pack32]
  rw [if_neg (by simp [pack32, pack64])]
  rw [take_pack32, unpackBE_pack32 w hw]
  rw [drop_pack32, take_pack32, unpackBE_pack32 h hh]
  rw [drop8_two32, take_pack64, unpackBE_pack64 _ hc]
  rw [drop16_hdr]
  rw [List.take_of_length_le (List.length_take_le' _ _)]
  rw [List.drop_eq_nil_of_le (List.length_take_le' _ _)]
  rw [if_neg (by simp)]

/-- Truncating a version-1 stream at or after byte 28 but before the end
of the 8-byte alpha length (byte 36 + N) yields `truncated`. -/
lemma parse_take_v1_mid (w h : Nat) (c a : List Nat) (k : Nat)
    (hw : w < 2 ^ 32) (hh : h < 2 ^ 32) (hc : c.length < 2 ^ 64)
    (h28 : 28 ≤ k) (hend : k < 36 + c.length) :
    parse_milimg_container ((MAGIC ++ pack32 1 ++ pack32 w ++ pack32 h
      ++ pack64 c.length ++ c ++ pack64 a.length ++ a).take k) =
      .error .truncated := by
  simp only [List.append_assoc]
  rw [take_append_general MAGIC _ k 8 rfl (by omega)]
  rw [take_append_general (pack32 1) _ (k - 8) 4 rfl (by omega)]
  rw [take_append_general (pack32 w) _ (k - 8 - 4) 4 rfl (by omega)]
  rw [take_append_general (pack32 h) _ (k - 8 - 4 - 4) 4 rfl (by omega)]
  rw [take_append_general (pack64 c.length) _ (k - 8 - 4 - 4 - 4) 8 rfl (by omega)]
  have hsub : k - 8 - 4 - 4 - 4 - 8 = k - 28 := by omega
  rw [hsub]
  simp only [parse_milimg_container]
  rw [take_magic, drop_magic]
  rw [if_neg (by simp)]
  rw [if_neg (by rw [List.length_append, pack32_length]; omega)]
  rw [take_pack32, unpackBE_pack32 1 (by omega)]
  rw [if_neg (by simp)]
  rw [drop_pack32]
  rw [if_neg (by simp [pack32, pack64])]
  rw [take_pack32, unpackBE_pack32 w hw]
  rw [drop_pack32, take_pack32, unpackBE_pack32 h hh]
  rw [drop8_two32, take_pack64, unpackBE_pack64 _ hc]
  rw [drop16_hdr]
  rw [if_pos rfl]
  rw [if_pos ?hlt]
  case hlt =>
    rw [List.length_drop]
    have h1 := List.length_take_le (k - 28) (c ++ (pack64 a.length ++ a))
    omega

/-- Truncating a version-1 stream at or after byte 36 + N succeeds,
returning the alpha payload cut down to the bytes actually present. -/
lemma parse_take_v1_tail (w h : Nat) (c a : List Nat) (k : Nat)
    (hw : w < 2 ^ 32) (hh : h < 2 ^ 32) (hc : c.length < 2 ^ 64)
    (ha : a.length < 2 ^ 64) (hk : 36 + c.length ≤ k) :
    parse_milimg_container ((MAGIC ++ pack32 1 ++ pack32 w ++ pack32 h
      ++ pack64 c.length ++ c ++ pack64 a.length ++ a).take k) =
      .ok ⟨1, w, h, c, some (a.take (k - 36 - c.length))⟩ := by
  simp only [List.append_assoc]
  rw [take_append_general MAGIC _ k 8 rfl (by omega)]
  rw [take_append_general (pack32 1) _ (k - 8) 4 rfl (by omega)]
  rw [take_append_general (pack32 w) _ (k - 8 - 4) 4 rfl (by omega)]
  rw [take_append_general (pack32 h) _ (k - 8 - 4 - 4) 4 rfl (by omega)]
  rw [take_append_general (pack64 c.length) _ (k - 8 - 4 - 4 - 4) 8 rfl (by omega)]
  rw [take_append_general c _ (k - 8 - 4 - 4 - 4 - 8) c.length rfl (by omega)]
  rw [take_append_general (pack64 a.length) a _ 8 rfl (by omega)]
  have hsub : k - 8 - 4 - 4 - 4 - 8 - c.length - 8 = k - 36 - c.length := by omega
  rw [hsub]
  simp only [parse_milimg_container]
  rw [take_magic, drop_magic]
  rw [if_neg (by simp)]
  rw [if_neg (by rw [List.length_append, pack32_length]; omega)]
  rw [take_pack32, unpackBE_pack32 1 (by omega)]
  rw [if_neg (by simp)]
  rw [drop_pack32]
  rw [if_neg (by simp [pack32, pack64])]
  rw [take_pack32, unpackBE_pack32 w hw]
  rw [drop_pack32, take_pack32, unpackBE_pack32 h hh]
  rw [drop8_two32, take_pack64, unpackBE_pack64 _ hc]
  rw [drop16_hdr]
  rw [List.take_left, List.drop_left]
  rw [if_pos rfl]
  rw [if_neg (by rw [List.length_append, pack64_length]; omega)]
  rw [take_pack64, unpackBE_pack64 _ ha]
  rw [drop_pack64]
  rw [List.take_of_length_le (List.length_take_le' _ _)]

/-- C2 amended: parsing a truncated serialized stream fails only when the
cut falls inside the magic (then `badMagic`, not `truncated`) or inside a
fixed-size field (then `truncated`); a cut inside the final payload region
(the color payload for version 0, the alpha payload for version 1) does
not fail: parse succeeds with the payload cut to the bytes present.
Parsing exactly the full bytes succeeds with the original record. -/
theorem parse_truncation_behavior (r : MilimgHeader) (s : List Nat) (k : Nat)
    (hval : validRecord r) (hw : r.width < 2 ^ 32) (hh : r.height < 2 ^ 32)
    (hc : r.color_payload.length < 2 ^ 64)
    (ha : (r.alpha_payload.getD []).length < 2 ^ 64)
    (hs : serialize r = .ok s) :
    (k < 8 → parse_milimg_container (s.take k) = .error .badMagic) ∧
    (8 ≤ k → k < 28 → parse_milimg_container (s.take k) = .error .truncated) ∧
    (r.version = 0 → 28 ≤ k →
      parse_milimg_container (s.take k) =
        .ok ⟨0, r.width, r.height, r.color_payload.take (k - 28), none⟩) ∧
    (r.version = 1 → 28 ≤ k → k < 36 + r.color_payload.length →
      parse_milimg_container (s.take k) = .error .truncated) ∧
    (r.version = 1 → 36 + r.color_payload.length ≤ k →
      parse_milimg_container (s.take k) =
        .ok ⟨1, r.width, r.height, r.color_payload,
          some ((r.alpha_payload.getD []).take (k - 36 - r.color_payload.length))⟩) ∧
    parse_milimg_container s = .ok r := by
  obtain ⟨v, w, h, c, al⟩ := r
  obtain ⟨hv01, hnone, hsome⟩ := hval
  simp only at hv01 hnone hsome hw hh hc ha ⊢
  rcases hv01 with hv | hv
  · subst hv
    obtain rfl : al = none := hnone.mpr rfl
    rw [serialize_v0 w h c hw hh hc] at hs
    obtain rfl : _ = s := (Except.ok.injEq _ _).mp hs
    refine ⟨fun hk => parse_take_lt8 _ k hk, ?_, ?_, ?_, ?_, ?_⟩
    · intro h8 h28
      rcases Nat.lt_or_ge k 12 with h12 | h12
      · simp only [List.append_assoc]
        exact parse_take_hdr1 _ k h8 h12
      · simp only [List.append_assoc]
        exact parse_take_hdr2 0 _ k (Or.inl rfl) h12 h28
    · intro _ h28
      exact parse_take_v0_payload w h c k hw hh hc h28
    · intro h1
      exact absurd h1 (by decide)
    · intro h1
      exact absurd h1 (by decide)
    · have := parse_ok_v0 w h c [] hw hh hc
      simpa using this
  · subst hv
    obtain ⟨a, rfl⟩ : ∃ a, al = some a := Option.isSome_iff_exists.mp (hsome.mpr rfl)
    simp only [Option.getD_some] at ha ⊢
    rw [serialize_v1 w h c a hw hh hc ha] at hs
    obtain rfl : _ = s := (Except.ok.injEq _ _).mp hs
    refine ⟨fun hk => parse_take_lt8 _ k hk, ?_, ?_, ?_, ?_, ?_⟩
    · intro h8 h28
      rcases Nat.lt_or_ge k 12 with h12 | h12
      · simp only [List.append_assoc]
        exact parse_take_hdr1 _ k h8 h12
      · simp only [List.append_assoc]
        exact parse_take_hdr2 1 _ k (Or.inr rfl) h12 h28
    · intro h0
      exact absurd h0 (by decide)
    · intro _ h28 hend
      exact parse_take_v1_mid w h c a k hw hh hc h28 hend
    · intro _ hk
      exact parse_take_v1_tail w h c a k hw hh hc ha hk
    · have := parse_ok_v1 w h c a [] hw hh hc ha
      simpa using this

/-- Witness for the amended C2: the 29-byte serialization of
(version 0, 0x0, color "A") truncated at byte 28 parses successfully with
an empty color payload. -/
theorem parse_truncation_behavior_witness :
    parse_milimg_container
        (([77, 105, 108, 105, 109, 103, 48, 48,
           0, 0, 0, 0,  0, 0, 0, 0,  0, 0, 0, 0,
           0, 0, 0, 0, 0, 0, 0, 1,  65] : List Nat).take 28) =
      .ok ⟨0, 0, 0, [], none⟩ :=
  (parse_truncation_behavior ⟨0, 0, 0, [65], none⟩ _ 28 (by decide) (by decide)
      (by decide) (by decide) (by decide) rfl).2.2.1 rfl (by decide)

/-- C2 counterexample: the serialization of (version 0, 0x0, color "A")
has 29 bytes; its strict 28-byte prefix — a truncation strictly before the
expected end of record — parses successfully (with an empty color payload)
instead of failing with `truncated`. -/
theorem truncated_prefix_parses_ok :
    ([77, 105, 108, 105, 109, 103, 48, 48,
      0, 0, 0, 0,  0, 0, 0, 0,  0, 0, 0, 0,
      0, 0, 0, 0, 0, 0, 0, 1,  65] : List Nat).length = 29 ∧
    serialize ⟨0, 0, 0, [65], none⟩ =
      .ok [77, 105, 108, 105, 109, 103, 48, 48,
           0, 0, 0, 0,  0, 0, 0, 0,  0, 0, 0, 0,
           0, 0, 0, 0, 0, 0, 0, 1,  65] ∧
    parse_milimg_container
        (([77, 105, 108, 105, 109, 103, 48, 48,
           0, 0, 0, 0,  0, 0, 0, 0,  0, 0, 0, 0,
           0, 0, 0, 0, 0, 0, 0, 1,  65] : List Nat).take 28) =
      .ok ⟨0, 0, 0, [], none⟩ :=
  ⟨rfl, rfl, rfl⟩

end Milimg
